import Mathlib

/-!
Verification of the timecard aggregation and overtime computation engine of a
mobile timeclock application.  The definitions below are a shallow embedding of
the logic of `src/screens/TimecardHistoryScreen.js`: the period filter
(`filterTimecards`), the summary aggregator with its California-law overtime
classifier (`calculateSummary`), the day grouper (`getTimecardsByDate`), the
day-status derivation (`getStatusChip`) and the submission guard.  Calendar
dates are modelled as epoch-day integers and timestamps as epoch-minute
integers; worked hours are exact rationals (minutes divided by 60), so the
floating-point tolerances of the specification become exact identities.
-/

namespace Timecard

/-- The four clock-event kinds handled by the screen. -/
inductive EventType
  | clock_in
  | clock_out
  | lunch_out
  | lunch_in
deriving DecidableEq, Repr

/-- Approval status of a single clock event. -/
inductive Status
  | draft
  | submitted
  | approved
deriving DecidableEq, Repr

/-- A clock event as consumed by the screen: an identifier, the attributed
calendar date (epoch day), a timestamp (epoch minute), the event kind, the
optional job and task names, and the approval status. -/
structure ClockEvent where
  id : Nat
  date : Int
  timestamp : Int
  type : EventType
  job : Option String
  task : Option String
  status : Status
deriving DecidableEq, Repr

/-- The summary state of the screen: total, regular, overtime and double-time
hours, as set by `calculateSummary`. -/
structure Summary where
  totalHours : ℚ
  regularHours : ℚ
  overtimeHours : ℚ
  doubleTimeHours : ℚ
deriving DecidableEq, Repr

/-- Timestamp-ascending comparison used by the in-day sort
(`(a, b) => new Date(a.timestamp) - new Date(b.timestamp)`). -/
def tsLe (a b : ClockEvent) : Prop := a.timestamp ≤ b.timestamp

instance : DecidableRel tsLe := fun a b => inferInstanceAs (Decidable (a.timestamp ≤ b.timestamp))

instance : IsTotal ClockEvent tsLe := ⟨fun a b => le_total a.timestamp b.timestamp⟩

instance : IsTrans ClockEvent tsLe := ⟨fun _ _ _ h1 h2 => le_trans h1 h2⟩

/-- Strict timestamp comparison, used to state uniqueness of sorted orders. -/
def tsLt (a b : ClockEvent) : Prop := a.timestamp < b.timestamp

instance : IsAntisymm ClockEvent tsLt :=
  ⟨fun _ _ h1 h2 => absurd h2 (not_lt.mpr (le_of_lt h1))⟩

/-- Date-descending comparison used for the day keys
(`(a, b) => new Date(b) - new Date(a)`). -/
def dateGe (a b : Int) : Prop := b ≤ a

instance : DecidableRel dateGe := fun a b => inferInstanceAs (Decidable (b ≤ a))

instance : IsTotal Int dateGe := ⟨fun a b => (le_total b a).imp id id⟩

instance : IsTrans Int dateGe := ⟨fun _ _ _ h1 h2 => le_trans h2 h1⟩

instance : IsAntisymm Int dateGe := ⟨fun _ _ h1 h2 => le_antisymm h2 h1⟩

/-- Scan state of the hours calculator: accrued worked minutes, whether we are
inside a clock-in span, whether we are inside a lunch break, and the minute at
which accrual last resumed. -/
structure ScanState where
  accrued : Int
  clockedIn : Bool
  onLunch : Bool
  lastStart : Int
deriving DecidableEq, Repr

/-- Modelled from the spec: one step of `TimeclockService.calculateDayHours`
(the service module is imported by the screen but absent from the repository
snapshot).  Per §4.2 the scan keeps a clocked-in flag and an on-lunch flag;
time accrues between a `clock_in`/`lunch_in` and the next
`lunch_out`/`clock_out`; a `clock_out` with no preceding `clock_in` is
ignored; a `lunch_out` with no following `lunch_in` freezes accrual at the
lunch boundary. -/
def stepEvent (s : ScanState) (e : ClockEvent) : ScanState :=
  match e.type with
  | .clock_in =>
      if s.clockedIn then s
      else { s with clockedIn := true, onLunch := false, lastStart := e.timestamp }
  | .clock_out =>
      if s.clockedIn then
        if s.onLunch then { s with clockedIn := false, onLunch := false }
        else { s with accrued := s.accrued + (e.timestamp - s.lastStart), clockedIn := false }
      else s
  | .lunch_out =>
      if s.clockedIn && !s.onLunch then
        { s with accrued := s.accrued + (e.timestamp - s.lastStart), onLunch := true }
      else s
  | .lunch_in =>
      if s.clockedIn && s.onLunch then { s with onLunch := false, lastStart := e.timestamp }
      else s

/-- Worked minutes of one day's events: the events are scanned in timestamp
order; a span still open at the end of the record contributes nothing
(conservative, per §4.2). -/
def dayMinutes (events : List ClockEvent) : Int :=
  ((List.insertionSort tsLe events).foldl stepEvent ⟨0, false, false, 0⟩).accrued

/-- Modelled from the spec: `TimeclockService.calculateDayHours` (absent from
the repository snapshot) — total worked hours of one day's events, per §4.2:
hours accrue between `clock_in` and the next `clock_out`, lunch periods are
subtracted, unmatched events contribute zero. -/
def calculateDayHours (events : List ClockEvent) : ℚ :=
  (dayMinutes events : ℚ) / 60

/-- First-occurrence deduplication of the date keys, mirroring the insertion
order of the string-keyed objects `dailyHours` / `grouped` in the screen. -/
def dedupKeysAux (seen : List Int) : List Int → List Int
  | [] => []
  | d :: rest =>
      if d ∈ seen then dedupKeysAux seen rest
      else d :: dedupKeysAux (d :: seen) rest

/-- The distinct attributed dates of a timecard list, in first-occurrence
order (the iteration order of `Object.keys`). -/
def dedupKeys (l : List Int) : List Int := dedupKeysAux [] l

/-- Worked hours of the events of `timecards` attributed to date `d`. -/
def dayTotal (timecards : List ClockEvent) (d : Int) : ℚ :=
  calculateDayHours (timecards.filter (fun tc => decide (tc.date = d)))

/-- The per-day branch of `calculateSummary` (lines 121–130): the California
tiered overtime split of one day's total hours, as
(regular, overtime, doubleTime). -/
def classifyDay (dayHours : ℚ) : ℚ × ℚ × ℚ :=
  if dayHours > 12 then (8, 4, dayHours - 12)
  else if dayHours > 8 then (8, dayHours - 8, 0)
  else (dayHours, 0, 0)

/-- One iteration of the `Object.keys(dailyHours).forEach` loop of
`calculateSummary`: add the day's hours to the running totals according to the
overtime tiers. -/
def summaryStep (timecards : List ClockEvent) (s : Summary) (date : Int) : Summary :=
  let dayHours := dayTotal timecards date
  let b := classifyDay dayHours
  { totalHours := s.totalHours + dayHours
    regularHours := s.regularHours + b.1
    overtimeHours := s.overtimeHours + b.2.1
    doubleTimeHours := s.doubleTimeHours + b.2.2 }

/-- `calculateSummary` (lines 101–139): group the timecards by attributed
date, then accumulate each day's hours and overtime split. -/
def calculateSummary (timecards : List ClockEvent) : Summary :=
  (dedupKeys (timecards.map (fun tc => tc.date))).foldl (summaryStep timecards) ⟨0, 0, 0, 0⟩

/-- One entry of the day-grouped view built by `getTimecardsByDate`. -/
structure DayGroup where
  date : Int
  timecards : List ClockEvent
  totalHours : ℚ
deriving DecidableEq, Repr

/-- The group of events of `l` attributed to date `d`, sorted by timestamp
ascending (`grouped[date].sort(...)`, a stable sort keyed on the timestamp
alone). -/
def dayEventsSorted (l : List ClockEvent) (d : Int) : List ClockEvent :=
  List.insertionSort tsLe (l.filter (fun tc => decide (tc.date = d)))

/-- The `sortedDates` of `getTimecardsByDate` (line 204): the distinct
attributed dates, sorted descending. -/
def sortedDatesOf (l : List ClockEvent) : List Int :=
  List.insertionSort dateGe (dedupKeys (l.map (fun tc => tc.date)))

/-- The entry `getTimecardsByDate` emits for one date: its timestamp-sorted
events and their day total (the in-place `sort` of line 208 runs before
`calculateDayHours` reads the array on line 209). -/
def dayGroupFor (l : List ClockEvent) (date : Int) : DayGroup :=
  let g := dayEventsSorted l date
  { date := date, timecards := g, totalHours := calculateDayHours g }

/-- `getTimecardsByDate` (lines 194–211): group the filtered timecards by
attributed date, sort the dates descending, and emit for each date its
timestamp-sorted events and day total. -/
def getTimecardsByDate (filteredTimecards : List ClockEvent) : List DayGroup :=
  (sortedDatesOf filteredTimecards).map (dayGroupFor filteredTimecards)

/-- The period selector of the screen (`week` | `month` | `all`). -/
inductive Period
  | week
  | month
  | all
deriving DecidableEq, Repr

/-- Start of the calendar week containing epoch day `now` (weeks start on
Sunday, the `date-fns` default; epoch day 0, 1970-01-01, was a Thursday). -/
def startOfWeek (now : Int) : Int := now - (now + 4) % 7

/-- End (last day) of the calendar week containing epoch day `now`. -/
def endOfWeek (now : Int) : Int := startOfWeek now + 6

/-- Civil date (year, month, day) of an epoch day (days since 1970-01-01),
proleptic Gregorian calendar. -/
def civilFromDays (z0 : Int) : Int × Int × Int :=
  let z := z0 + 719468
  let era := (if 0 ≤ z then z else z - 146096) / 146097
  let doe := z - era * 146097
  let yoe := (doe - doe / 1460 + doe / 36524 - doe / 146096) / 365
  let y := yoe + era * 400
  let doy := doe - (365 * yoe + yoe / 4 - yoe / 100)
  let mp := (5 * doy + 2) / 153
  let d := doy - (153 * mp + 2) / 5 + 1
  let m := mp + (if mp < 10 then 3 else -9)
  (y + (if m ≤ 2 then 1 else 0), m, d)

/-- Epoch day of a civil (year, month, day), proleptic Gregorian calendar. -/
def daysFromCivil (y0 m d : Int) : Int :=
  let y := y0 - (if m ≤ 2 then 1 else 0)
  let era := (if 0 ≤ y then y else y - 399) / 400
  let yoe := y - era * 400
  let mp := m + (if 2 < m then -3 else 9)
  let doy := (153 * mp + 2) / 5 + d - 1
  let doe := yoe * 365 + yoe / 4 - yoe / 100 + doy
  era * 146097 + doe - 719468

/-- First day of the calendar month containing epoch day `now`. -/
def startOfMonth (now : Int) : Int :=
  let c := civilFromDays now
  daysFromCivil c.1 c.2.1 1

/-- Last day of the calendar month containing epoch day `now`. -/
def endOfMonth (now : Int) : Int :=
  let c := civilFromDays now
  (if c.2.1 = 12 then daysFromCivil (c.1 + 1) 1 1 else daysFromCivil c.1 (c.2.1 + 1) 1) - 1

/-- The `switch (selectedPeriod)` of `filterTimecards` (lines 66–79): the
inclusive date window, or `none` for the unrestricted `all` period. -/
def periodRange : Period → Int → Option (Int × Int)
  | .week, now => some (startOfWeek now, endOfWeek now)
  | .month, now => some (startOfMonth now, endOfMonth now)
  | .all, _ => none

/-- The display label of an event kind, the string searched by the free-text
query (`tc.type`). -/
def typeLabel : EventType → String
  | .clock_in => "clock_in"
  | .clock_out => "clock_out"
  | .lunch_out => "lunch_out"
  | .lunch_in => "lunch_in"

/-- Lower-cased character sequence of a string (JS `toLowerCase`). -/
def lowerChars (s : String) : List Char := s.toList.map Char.toLower

/-- `needle.isPrefixOf hay` on character lists, written out structurally. -/
def leadsWith : List Char → List Char → Bool
  | [], _ => true
  | _ :: _, [] => false
  | a :: as, b :: bs => a == b && leadsWith as bs

/-- Substring test on character lists (JS `hay.includes(needle)`). -/
def containsSub : List Char → List Char → Bool
  | needle, [] => needle.isEmpty
  | needle, c :: rest => leadsWith needle (c :: rest) || containsSub needle rest

/-- Case-insensitive substring test
(JS `hay.toLowerCase().includes(q.toLowerCase())`). -/
def containsCI (hay q : String) : Bool := containsSub (lowerChars q) (lowerChars hay)

/-- The search predicate of `filterTimecards` (lines 90–94): the job name, the
task name, or the event-kind label contains the query, case-insensitively;
absent job/task fields fail their disjunct. -/
def matchesQuery (searchQuery : String) (tc : ClockEvent) : Bool :=
  (match tc.job with
   | some j => containsCI j searchQuery
   | none => false) ||
  (match tc.task with
   | some t => containsCI t searchQuery
   | none => false) ||
  containsCI (typeLabel tc.type) searchQuery

/-- `filterTimecards` (lines 59–99): restrict to the selected period's closed
date window (using the attributed date), then, when the query is non-empty,
to the events matching the free-text query. -/
def filterTimecards (selectedPeriod : Period) (now : Int) (searchQuery : String)
    (timecards : List ClockEvent) : List ClockEvent :=
  let afterPeriod :=
    match periodRange selectedPeriod now with
    | some se => timecards.filter (fun tc => decide (se.1 ≤ tc.date ∧ tc.date ≤ se.2))
    | none => timecards
  if searchQuery.isEmpty then afterPeriod
  else afterPeriod.filter (matchesQuery searchQuery)

/-- The three chips `getStatusChip` can render for a day. -/
inductive DayStatusChip
  | approved
  | pending
  | draft
deriving DecidableEq, Repr

/-- `getStatusChip` (lines 233–244): approved if any event of the day is
approved, else pending approval if any is submitted, else draft. -/
def getStatusChip (timecards : List ClockEvent) : DayStatusChip :=
  let hasSubmitted := timecards.any (fun tc => decide (tc.status = Status.submitted))
  let hasApproved := timecards.any (fun tc => decide (tc.status = Status.approved))
  if hasApproved then .approved
  else if hasSubmitted then .pending
  else .draft

/-- The `disabled` guard of the per-day Submit button (line 329): disabled as
soon as some event of the day is submitted or approved. -/
def submitDisabled (timecards : List ClockEvent) : Bool :=
  timecards.any (fun tc => decide (tc.status = Status.submitted ∨ tc.status = Status.approved))

/-- Modelled from the spec: `TimeclockService.submitForApproval` (absent from
the repository snapshot) — per §4.6, submission for a date is permitted only
when no event of that date is already submitted or approved; a violation is a
reported conflict error, a success marks the date's events submitted. -/
def submitForApproval (date : Int) (events : List ClockEvent) :
    Except String (List ClockEvent) :=
  if events.any (fun e =>
      decide (e.date = date ∧ (e.status = Status.submitted ∨ e.status = Status.approved))) then
    Except.error "Timecard already submitted or approved for this date"
  else
    Except.ok (events.map (fun e =>
      if e.date = date then { e with status := Status.submitted } else e))

/-- A bare clock event with neither job, task, nor prior approval state. -/
def mkEvent (id : Nat) (date : Int) (timestamp : Int) (ty : EventType) : ClockEvent :=
  ⟨id, date, timestamp, ty, none, none, Status.draft⟩

/-- The bucket triple of a day always sums back to the day's total. -/
theorem classifyDay_sum (h : ℚ) :
    (classifyDay h).1 + (classifyDay h).2.1 + (classifyDay h).2.2 = h := by
  unfold classifyDay
  split_ifs <;> ring

/-- Closed form of the accumulation loop of `calculateSummary`: each field is
the starting value plus the corresponding per-day bucket sum. -/
theorem summary_foldl (timecards : List ClockEvent) (ds : List Int) :
    ∀ s : Summary,
      ds.foldl (summaryStep timecards) s =
        { totalHours := s.totalHours + (ds.map (fun d => dayTotal timecards d)).sum
          regularHours :=
            s.regularHours + (ds.map (fun d => (classifyDay (dayTotal timecards d)).1)).sum
          overtimeHours :=
            s.overtimeHours + (ds.map (fun d => (classifyDay (dayTotal timecards d)).2.1)).sum
          doubleTimeHours :=
            s.doubleTimeHours + (ds.map (fun d => (classifyDay (dayTotal timecards d)).2.2)).sum } := by
  induction ds with
  | nil => intro s; simp
  | cons d ds ih =>
    intro s
    rw [List.foldl_cons, ih]
    simp only [summaryStep, List.map_cons, List.sum_cons, Summary.mk.injEq]
    refine ⟨by ring, by ring, by ring, by ring⟩

/-- C1: the overtime classifier follows the three California tiers — all hours
regular up to 8, overtime for the part between 8 and 12, double time beyond
12 — with the boundary inputs 8 and 12 falling in the lower tier. -/
theorem classifyDay_tiers (h : ℚ) (_hnn : 0 ≤ h) :
    (h ≤ 8 → classifyDay h = (h, 0, 0)) ∧
    (8 < h → h ≤ 12 → classifyDay h = (8, h - 8, 0)) ∧
    (12 < h → classifyDay h = (8, 4, h - 12)) ∧
    classifyDay 8 = (8, 0, 0) ∧
    classifyDay 12 = (8, 4, 0) := by
  refine ⟨fun h1 => ?_, fun h1 h2 => ?_, fun h1 => ?_, ?_, ?_⟩
  · unfold classifyDay
    split_ifs with a b
    · linarith
    · linarith
    · rfl
  · unfold classifyDay
    rw [if_neg (not_lt.mpr h2), if_pos h1]
  · unfold classifyDay
    rw [if_pos h1]
  · unfold classifyDay
    norm_num
  · unfold classifyDay
    norm_num

/-- Witness for C1 at the concrete inputs 7, 9 and 13. -/
theorem classifyDay_tiers_witness :
    classifyDay 7 = (7, 0, 0) ∧ classifyDay 9 = (8, 1, 0) ∧ classifyDay 13 = (8, 4, 1) := by
  refine ⟨(classifyDay_tiers 7 (by norm_num)).1 (by norm_num), ?_, ?_⟩
  · rw [(classifyDay_tiers 9 (by norm_num)).2.1 (by norm_num) (by norm_num)]
    norm_num
  · rw [(classifyDay_tiers 13 (by norm_num)).2.2.1 (by norm_num)]
    norm_num

/-- C2: for non-negative day totals the three buckets partition the total
exactly, and the aggregate summary satisfies the same identity:
`totalHours = regularHours + overtimeHours + doubleTimeHours`. -/
theorem classify_buckets_partition (h : ℚ) (_hnn : 0 ≤ h) :
    (classifyDay h).1 + (classifyDay h).2.1 + (classifyDay h).2.2 = h ∧
    ∀ timecards : List ClockEvent,
      (calculateSummary timecards).totalHours =
        (calculateSummary timecards).regularHours + (calculateSummary timecards).overtimeHours +
          (calculateSummary timecards).doubleTimeHours := by
  refine ⟨classifyDay_sum h, fun timecards => ?_⟩
  rw [calculateSummary, summary_foldl]
  simp only [zero_add]
  rw [← List.sum_map_add, ← List.sum_map_add]
  exact (List.map_congr_left fun d _ => (classifyDay_sum (dayTotal timecards d)).symm) ▸ rfl

/-- Witness for C2 at the concrete input 9 and a two-event list. -/
theorem classify_buckets_partition_witness :
    (classifyDay 9).1 + (classifyDay 9).2.1 + (classifyDay 9).2.2 = 9 ∧
    (calculateSummary [mkEvent 1 0 480 .clock_in, mkEvent 2 0 1020 .clock_out]).totalHours =
      (calculateSummary [mkEvent 1 0 480 .clock_in, mkEvent 2 0 1020 .clock_out]).regularHours +
        (calculateSummary [mkEvent 1 0 480 .clock_in, mkEvent 2 0 1020 .clock_out]).overtimeHours +
        (calculateSummary [mkEvent 1 0 480 .clock_in, mkEvent 2 0 1020 .clock_out]).doubleTimeHours :=
  ⟨(classify_buckets_partition 9 (by norm_num)).1,
   (classify_buckets_partition 0 le_rfl).2 _⟩

/-- Membership in the first-occurrence deduplication: exactly the elements of
the input not already seen. -/
theorem mem_dedupKeysAux (a : Int) :
    ∀ (l seen : List Int), a ∈ dedupKeysAux seen l ↔ a ∈ l ∧ a ∉ seen := by
  intro l
  induction l with
  | nil => intro seen; simp [dedupKeysAux]
  | cons d rest ih =>
    intro seen
    simp only [dedupKeysAux]
    by_cases hd : d ∈ seen
    · rw [if_pos hd, ih]
      simp only [List.mem_cons]
      constructor
      · rintro ⟨h1, h2⟩
        exact ⟨Or.inr h1, h2⟩
      · rintro ⟨h1 | h1, h2⟩
        · exact absurd (h1 ▸ hd) h2
        · exact ⟨h1, h2⟩
    · rw [if_neg hd]
      simp only [List.mem_cons, ih]
      by_cases ha : a = d
      · subst ha
        simp [hd]
      · simp [ha, not_or]

/-- The first-occurrence deduplication never repeats an element. -/
theorem nodup_dedupKeysAux : ∀ (l seen : List Int), (dedupKeysAux seen l).Nodup := by
  intro l
  induction l with
  | nil => intro seen; simp [dedupKeysAux]
  | cons d rest ih =>
    intro seen
    simp only [dedupKeysAux]
    by_cases hd : d ∈ seen
    · rw [if_pos hd]; exact ih seen
    · rw [if_neg hd]
      refine List.nodup_cons.mpr ⟨?_, ih (d :: seen)⟩
      rw [mem_dedupKeysAux]
      rintro ⟨-, h2⟩
      exact h2 (List.mem_cons_self d seen)

/-- The distinct date keys are exactly the dates present in the input. -/
theorem mem_dedupKeys (a : Int) (l : List Int) : a ∈ dedupKeys l ↔ a ∈ l := by
  rw [dedupKeys, mem_dedupKeysAux]
  simp

/-- The distinct date keys have no duplicates. -/
theorem nodup_dedupKeys (l : List Int) : (dedupKeys l).Nodup := nodup_dedupKeysAux l []

/-- Concatenating the per-date filters over a duplicate-free covering key list
rebuilds a permutation of the original event list. -/
theorem flatMap_filter_perm :
    ∀ (ks : List Int) (l : List ClockEvent), ks.Nodup → (∀ e ∈ l, e.date ∈ ks) →
      (ks.flatMap (fun d => l.filter (fun tc => decide (tc.date = d)))).Perm l := by
  intro ks
  induction ks with
  | nil =>
    intro l _ hcov
    have hl : l = [] := List.eq_nil_iff_forall_not_mem.mpr (fun e he => by simpa using hcov e he)
    simp [hl]
  | cons d ks ih =>
    intro l hnd hcov
    have hnd' := List.nodup_cons.mp hnd
    rw [List.flatMap_cons]
    have hcongr : ∀ d' ∈ ks,
        l.filter (fun tc => decide (tc.date = d')) =
          (l.filter (fun tc => !(decide (tc.date = d)))).filter
            (fun tc => decide (tc.date = d')) := by
      intro d' hd'
      have hne : d' ≠ d := fun hdd => hnd'.1 (hdd ▸ hd')
      rw [List.filter_filter]
      apply List.filter_congr
      intro x _
      by_cases hx : x.date = d'
      · have hxd : ¬ x.date = d := fun hxd => hne (hx.symm.trans hxd)
        simp [hx, hxd, hne]
      · simp [hx]
    rw [List.flatMap_congr hcongr]
    have ihp := ih (l.filter (fun tc => !(decide (tc.date = d)))) hnd'.2 ?_
    · exact (List.Perm.append (List.Perm.refl _) ihp).trans
        (List.filter_append_perm (fun tc => decide (tc.date = d)) l)
    · intro e he
      rcases List.mem_filter.mp he with ⟨hel, hne⟩
      rcases List.mem_cons.mp (hcov e hel) with h | h
      · exact absurd (decide_eq_true h) (by simpa using hne)
      · exact h

/-- The date keys of the grouped view are the distinct dates, descending. -/
theorem map_date_getTimecardsByDate (l : List ClockEvent) :
    (getTimecardsByDate l).map (fun day => day.date) = sortedDatesOf l := by
  rw [getTimecardsByDate, List.map_map]
  have : ((fun day => day.date) ∘ dayGroupFor l) = id := by
    funext d
    rfl
  rw [this, List.map_id]

/-- C4: the day grouper emits one group per distinct attributed date, dates
strictly descending, events inside each group sorted by timestamp ascending;
flattening the groups is a permutation of the input, and the empty input
yields the empty sequence. -/
theorem getTimecardsByDate_grouping (l : List ClockEvent) :
    getTimecardsByDate ([] : List ClockEvent) = [] ∧
    ((getTimecardsByDate l).map (fun day => day.date)).Pairwise (fun a b => b < a) ∧
    (∀ d : Int,
      d ∈ (getTimecardsByDate l).map (fun day => day.date) ↔ d ∈ l.map (fun tc => tc.date)) ∧
    (getTimecardsByDate l).Forall (fun day => List.Sorted tsLe day.timecards) ∧
    ((getTimecardsByDate l).flatMap (fun day => day.timecards)).Perm l := by
  have hpermdates : (sortedDatesOf l).Perm (dedupKeys (l.map (fun tc => tc.date))) :=
    List.perm_insertionSort dateGe _
  refine ⟨rfl, ?_, ?_, ?_, ?_⟩
  · rw [map_date_getTimecardsByDate]
    have hsorted : List.Pairwise dateGe (sortedDatesOf l) :=
      List.sorted_insertionSort dateGe _
    have hnodup : (sortedDatesOf l).Nodup :=
      hpermdates.symm.nodup (nodup_dedupKeys _)
    exact (hsorted.and hnodup).imp fun hab => lt_of_le_of_ne hab.1 (Ne.symm hab.2)
  · intro d
    rw [map_date_getTimecardsByDate]
    exact hpermdates.mem_iff.trans (mem_dedupKeys _ _)
  · rw [List.forall_iff_forall_mem]
    intro day hday
    rcases List.mem_map.mp hday with ⟨d, -, rfl⟩
    exact List.sorted_insertionSort tsLe _
  · rw [getTimecardsByDate, List.flatMap_map]
    have h1 : ((sortedDatesOf l).flatMap fun d => (dayGroupFor l d).timecards).Perm
        ((sortedDatesOf l).flatMap fun d => l.filter (fun tc => decide (tc.date = d))) :=
      List.Perm.flatMap_left _ (fun d _ => List.perm_insertionSort tsLe _)
    have h2 : ((sortedDatesOf l).flatMap fun d => l.filter (fun tc => decide (tc.date = d))).Perm
        ((dedupKeys (l.map (fun tc => tc.date))).flatMap
          fun d => l.filter (fun tc => decide (tc.date = d))) :=
      List.Perm.flatMap_right _ hpermdates
    exact (h1.trans h2).trans
      (flatMap_filter_perm _ l (nodup_dedupKeys _)
        (fun e he => (mem_dedupKeys _ _).mpr (List.mem_map_of_mem _ he)))

/-- C3: the worked-day examples of the hours calculator — a full day with a
lunch break yields 8 hours, a lone `clock_out` yields 0, and an unterminated
`clock_in` yields 0. -/
theorem calculateDayHours_examples :
    calculateDayHours
        [mkEvent 1 0 480 .clock_in, mkEvent 2 0 720 .lunch_out,
         mkEvent 3 0 750 .lunch_in, mkEvent 4 0 990 .clock_out] = 8 ∧
    calculateDayHours [mkEvent 1 0 540 .clock_out] = 0 ∧
    calculateDayHours [mkEvent 1 0 480 .clock_in] = 0 := by
  refine ⟨?_, ?_, ?_⟩ <;>
    · simp only [calculateDayHours, dayMinutes, List.insertionSort, List.orderedInsert,
        tsLe, mkEvent, stepEvent, List.foldl]
      norm_num

/-- Two work-days of clock events: 9 worked hours on day 0 (minutes 0–540)
and 13 on day 1 (minutes 1440–2220). -/
def exTwoDays : List ClockEvent :=
  [mkEvent 1 0 0 .clock_in, mkEvent 2 0 540 .clock_out,
   mkEvent 3 1 1440 .clock_in, mkEvent 4 1 2220 .clock_out]

/-- C5: the aggregate summary is the bucket-wise sum of the per-day
breakdowns; folding the day keys in any other order yields the same
aggregate; and two days of 9 and 13 hours aggregate to total 22, regular 16,
overtime 5, double time 1. -/
theorem calculateSummary_bucketwise :
    (∀ timecards : List ClockEvent,
      calculateSummary timecards =
        { totalHours :=
            ((dedupKeys (timecards.map (fun tc => tc.date))).map
              (fun d => dayTotal timecards d)).sum
          regularHours :=
            ((dedupKeys (timecards.map (fun tc => tc.date))).map
              (fun d => (classifyDay (dayTotal timecards d)).1)).sum
          overtimeHours :=
            ((dedupKeys (timecards.map (fun tc => tc.date))).map
              (fun d => (classifyDay (dayTotal timecards d)).2.1)).sum
          doubleTimeHours :=
            ((dedupKeys (timecards.map (fun tc => tc.date))).map
              (fun d => (classifyDay (dayTotal timecards d)).2.2)).sum }) ∧
    (∀ (timecards : List ClockEvent) (ds : List Int),
      ds.Perm (dedupKeys (timecards.map (fun tc => tc.date))) →
        ds.foldl (summaryStep timecards) ⟨0, 0, 0, 0⟩ = calculateSummary timecards) ∧
    calculateSummary exTwoDays =
      { totalHours := 22, regularHours := 16, overtimeHours := 5, doubleTimeHours := 1 } := by
  refine ⟨?_, ?_, ?_⟩
  · intro timecards
    rw [calculateSummary, summary_foldl]
    simp
  · intro timecards ds hperm
    rw [calculateSummary, summary_foldl, summary_foldl]
    simp only [Summary.mk.injEq, zero_add]
    exact ⟨(hperm.map _).sum_eq, (hperm.map _).sum_eq, (hperm.map _).sum_eq,
      (hperm.map _).sum_eq⟩
  · norm_num [calculateSummary, dedupKeys, dedupKeysAux, exTwoDays, mkEvent, summaryStep,
      dayTotal, calculateDayHours, dayMinutes, List.insertionSort, List.orderedInsert, tsLe,
      stepEvent, classifyDay, List.foldl, List.filter]

/-- Witness for C5: folding the reversed day-key list of the two-day example
yields the same aggregate as `calculateSummary`. -/
theorem calculateSummary_bucketwise_witness :
    ([(1 : Int), 0]).foldl (summaryStep exTwoDays) ⟨0, 0, 0, 0⟩ = calculateSummary exTwoDays :=
  calculateSummary_bucketwise.2.1 exTwoDays [1, 0] (by decide)

/-- `leadsWith` decides list-prefix. -/
theorem leadsWith_iff : ∀ n h : List Char, leadsWith n h = true ↔ n <+: h
  | [], h => by
    exact iff_of_true (by simp [leadsWith]) List.nil_prefix
  | a :: as, [] => by
    simp [leadsWith, List.prefix_nil]
  | a :: as, b :: bs => by
    simp [leadsWith, leadsWith_iff as bs, List.cons_prefix_cons]

/-- `containsSub` decides list-infix (the substring relation). -/
theorem containsSub_iff : ∀ (h n : List Char), containsSub n h = true ↔ n <:+: h
  | [], n => by
    simp [containsSub, List.isEmpty_iff, List.infix_nil]
  | c :: rest, n => by
    simp [containsSub, leadsWith_iff, containsSub_iff rest n, List.infix_cons_iff]

/-- The date window of the selected period, as the specification words it:
the closed interval of the calendar week (or month) containing `now`, or no
restriction for `all`. -/
def inWindowSpec (sel : Period) (now : Int) (tc : ClockEvent) : Prop :=
  match sel with
  | .week => startOfWeek now ≤ tc.date ∧ tc.date ≤ endOfWeek now
  | .month => startOfMonth now ≤ tc.date ∧ tc.date ≤ endOfMonth now
  | .all => True

/-- The free-text match, as the specification words it: an empty query
matches everything, otherwise the job name, the task name or the event-kind
label must contain the query as a case-insensitive substring. -/
def matchesQuerySpec (q : String) (tc : ClockEvent) : Prop :=
  q = "" ∨
    (∃ j, tc.job = some j ∧ lowerChars q <:+: lowerChars j) ∨
    (∃ t, tc.task = some t ∧ lowerChars q <:+: lowerChars t) ∨
    lowerChars q <:+: lowerChars (typeLabel tc.type)

/-- The boolean search predicate agrees with the three-field disjunction. -/
theorem matchesQuery_iff (q : String) (tc : ClockEvent) :
    matchesQuery q tc = true ↔
      (∃ j, tc.job = some j ∧ lowerChars q <:+: lowerChars j) ∨
      (∃ t, tc.task = some t ∧ lowerChars q <:+: lowerChars t) ∨
      lowerChars q <:+: lowerChars (typeLabel tc.type) := by
  cases hj : tc.job <;> cases ht : tc.task <;>
    simp [matchesQuery, hj, ht, containsCI, containsSub_iff, or_assoc]

/-- C6: the period filter retains exactly the events whose attributed date
lies in the closed window of the selected period and which match the optional
free-text query (job name, task name or kind label, case-insensitive
substring, logical OR; the empty query matches everything). -/
theorem filterTimecards_characterization (sel : Period) (now : Int) (q : String)
    (timecards : List ClockEvent) (tc : ClockEvent) :
    tc ∈ filterTimecards sel now q timecards ↔
      tc ∈ timecards ∧ inWindowSpec sel now tc ∧ matchesQuerySpec q tc := by
  by_cases hq : q.isEmpty = true
  · have hq' : q = "" := (String.isEmpty_iff q).mp hq
    subst hq'
    cases sel <;>
      simp [filterTimecards, periodRange, inWindowSpec, matchesQuerySpec, hq, List.mem_filter,
        decide_eq_true_eq, and_assoc]
  · have hq' : ¬ q = "" := fun h => hq ((String.isEmpty_iff q).mpr h)
    cases sel <;>
      simp [filterTimecards, periodRange, inWindowSpec, matchesQuerySpec, hq, hq',
        List.mem_filter, matchesQuery_iff, decide_eq_true_eq, and_assoc] <;>
      aesop

/-- C7: submission for a date succeeds exactly when no event of that date is
already submitted or approved; the screen's Submit-button guard disables
exactly when submission would conflict; the conflict is a reported error
value; and a second submission right after a successful one fails with the
conflict error whenever the date has at least one event. -/
theorem submitForApproval_guard (date : Int) (events : List ClockEvent) :
    ((submitForApproval date events).isOk = true ↔
      ¬ ∃ e ∈ events, e.date = date ∧
        (e.status = Status.submitted ∨ e.status = Status.approved)) ∧
    (submitDisabled (events.filter (fun e => decide (e.date = date))) = true ↔
      ∃ err, submitForApproval date events = Except.error err) ∧
    (∀ events' : List ClockEvent,
      (∃ e ∈ events, e.date = date) →
      submitForApproval date events = Except.ok events' →
      submitForApproval date events' =
        Except.error "Timecard already submitted or approved for this date") := by
  refine ⟨?_, ?_, ?_⟩
  · rw [submitForApproval]
    split_ifs with hc
    · simp only [List.any_eq_true, decide_eq_true_eq] at hc
      simp [Except.isOk, Except.toBool, hc]
    · simp only [List.any_eq_true, decide_eq_true_eq] at hc
      simp [Except.isOk, Except.toBool, hc]
  · rw [submitForApproval]
    split_ifs with hc
    · simp only [List.any_eq_true, decide_eq_true_eq] at hc
      simp only [submitDisabled, List.any_eq_true, List.mem_filter, decide_eq_true_eq]
      constructor
      · intro _
        exact ⟨_, rfl⟩
      · intro _
        rcases hc with ⟨e, he, hd, hs⟩
        exact ⟨e, ⟨he, hd⟩, hs⟩
    · simp only [List.any_eq_true, decide_eq_true_eq] at hc
      simp only [submitDisabled, List.any_eq_true, List.mem_filter, decide_eq_true_eq]
      constructor
      · rintro ⟨e, ⟨he, hd⟩, hs⟩
        exact absurd ⟨e, he, hd, hs⟩ hc
      · rintro ⟨err, herr⟩
        cases herr
  · intro events' hex hok
    rw [submitForApproval] at hok
    split_ifs at hok with hc
    rcases hex with ⟨e0, he0, hd0⟩
    have hmap : events' = events.map (fun e =>
        if e.date = date then { e with status := Status.submitted } else e) := by
      injection hok with h
      exact h.symm
    subst hmap
    rw [submitForApproval]
    have hany : ((events.map fun e =>
        if e.date = date then { e with status := Status.submitted } else e).any
          (fun e => decide (e.date = date ∧
            (e.status = Status.submitted ∨ e.status = Status.approved)))) = true := by
      rw [List.any_eq_true]
      refine ⟨(fun e => if e.date = date then { e with status := Status.submitted } else e) e0,
        List.mem_map_of_mem _ he0, ?_⟩
      simp [hd0]
    rw [if_pos hany]

/-- Witness for C7: submitting a one-event draft day gives the submitted
event list, and submitting again yields the conflict error. -/
theorem submitForApproval_guard_witness :
    submitForApproval 0 [⟨1, 0, 480, EventType.clock_in, none, none, Status.submitted⟩] =
      Except.error "Timecard already submitted or approved for this date" :=
  (submitForApproval_guard 0 [mkEvent 1 0 480 .clock_in]).2.2
    [⟨1, 0, 480, EventType.clock_in, none, none, Status.submitted⟩]
    ⟨mkEvent 1 0 480 .clock_in, by decide, by decide⟩ (by rfl)

/-- C8: the day chip is approved when any event of the day is approved, else
pending approval when any is submitted, else draft; a mixed day with one
submitted and one approved event resolves to approved. -/
theorem getStatusChip_precedence (timecards : List ClockEvent) (_hne : timecards ≠ []) :
    (getStatusChip timecards = DayStatusChip.approved ↔
      ∃ e ∈ timecards, e.status = Status.approved) ∧
    (getStatusChip timecards = DayStatusChip.pending ↔
      (¬ ∃ e ∈ timecards, e.status = Status.approved) ∧
        ∃ e ∈ timecards, e.status = Status.submitted) ∧
    (getStatusChip timecards = DayStatusChip.draft ↔
      (¬ ∃ e ∈ timecards, e.status = Status.approved) ∧
        ¬ ∃ e ∈ timecards, e.status = Status.submitted) ∧
    getStatusChip
      [⟨1, 0, 480, EventType.clock_in, none, none, Status.submitted⟩,
       ⟨2, 0, 960, EventType.clock_out, none, none, Status.approved⟩] =
      DayStatusChip.approved := by
  refine ⟨?_, ?_, ?_, by rfl⟩ <;>
    · simp only [getStatusChip]
      split_ifs with h1 h2 <;>
        simp_all [List.any_eq_true, decide_eq_true_eq]

/-- Witness for C8: the mixed submitted/approved day resolves to approved. -/
theorem getStatusChip_precedence_witness :
    getStatusChip
      [⟨1, 0, 480, EventType.clock_in, none, none, Status.submitted⟩,
       ⟨2, 0, 960, EventType.clock_out, none, none, Status.approved⟩] =
      DayStatusChip.approved :=
  (getStatusChip_precedence
    [⟨1, 0, 480, EventType.clock_in, none, none, Status.submitted⟩,
     ⟨2, 0, 960, EventType.clock_out, none, none, Status.approved⟩] (by decide)).2.2.2

/-- The symmetric tie-freedom relation: two events of the same day never
share a timestamp. -/
def tieFree (a b : ClockEvent) : Prop := a.date = b.date → a.timestamp ≠ b.timestamp

/-- `tieFree` is symmetric, so it transfers across permutations. -/
theorem tieFree_symm : ∀ {a b : ClockEvent}, tieFree a b → tieFree b a :=
  fun h hd => (h hd.symm).symm

/-- Equal sorted day groups give equal day totals. -/
theorem dayTotal_eq_of_group_eq (l1 l2 : List ClockEvent) (d : Int)
    (h : dayEventsSorted l1 d = dayEventsSorted l2 d) : dayTotal l1 d = dayTotal l2 d := by
  unfold dayEventsSorted at h
  unfold dayTotal calculateDayHours dayMinutes
  rw [h]

/-- Under tie-freedom within each day, the timestamp-sorted day groups of two
permuted inputs coincide. -/
theorem dayEventsSorted_eq_of_perm (l1 l2 : List ClockEvent) (hperm : l1.Perm l2)
    (hts : l1.Pairwise tieFree) (d : Int) :
    dayEventsSorted l1 d = dayEventsSorted l2 d := by
  have hp : (dayEventsSorted l1 d).Perm (dayEventsSorted l2 d) :=
    (List.perm_insertionSort tsLe _).trans
      ((hperm.filter _).trans (List.perm_insertionSort tsLe _).symm)
  have hne1 : (l1.filter (fun tc => decide (tc.date = d))).Pairwise
      (fun a b => a.timestamp ≠ b.timestamp) := by
    refine List.Pairwise.imp_of_mem ?_ (hts.filter (fun tc => decide (tc.date = d)))
    intro a b ha hb hr
    have had : a.date = d := by simpa using (List.mem_filter.mp ha).2
    have hbd : b.date = d := by simpa using (List.mem_filter.mp hb).2
    exact hr (had.trans hbd.symm)
  have hsorted1 : List.Pairwise tsLt (dayEventsSorted l1 d) := by
    have hle : List.Pairwise tsLe (dayEventsSorted l1 d) := List.sorted_insertionSort tsLe _
    have hne : List.Pairwise (fun a b => a.timestamp ≠ b.timestamp) (dayEventsSorted l1 d) :=
      ((List.perm_insertionSort tsLe _).pairwise_iff (fun h => h.symm)).mpr hne1
    exact (hle.and hne).imp fun hab => lt_of_le_of_ne hab.1 hab.2
  have hts2 : l2.Pairwise tieFree := (hperm.pairwise_iff tieFree_symm).mp hts
  have hne2 : (l2.filter (fun tc => decide (tc.date = d))).Pairwise
      (fun a b => a.timestamp ≠ b.timestamp) := by
    refine List.Pairwise.imp_of_mem ?_ (hts2.filter (fun tc => decide (tc.date = d)))
    intro a b ha hb hr
    have had : a.date = d := by simpa using (List.mem_filter.mp ha).2
    have hbd : b.date = d := by simpa using (List.mem_filter.mp hb).2
    exact hr (had.trans hbd.symm)
  have hsorted2 : List.Pairwise tsLt (dayEventsSorted l2 d) := by
    have hle : List.Pairwise tsLe (dayEventsSorted l2 d) := List.sorted_insertionSort tsLe _
    have hne : List.Pairwise (fun a b => a.timestamp ≠ b.timestamp) (dayEventsSorted l2 d) :=
      ((List.perm_insertionSort tsLe _).pairwise_iff (fun h => h.symm)).mpr hne2
    exact (hle.and hne).imp fun hab => lt_of_le_of_ne hab.1 hab.2
  exact List.eq_of_perm_of_sorted hp hsorted1 hsorted2

/-- Under tie-freedom, the sorted distinct date keys of two permuted inputs
coincide. -/
theorem sortedDatesOf_eq_of_perm (l1 l2 : List ClockEvent) (hperm : l1.Perm l2) :
    sortedDatesOf l1 = sortedDatesOf l2 := by
  have hd : (dedupKeys (l1.map (fun tc => tc.date))).Perm
      (dedupKeys (l2.map (fun tc => tc.date))) := by
    rw [List.perm_ext_iff_of_nodup (nodup_dedupKeys _) (nodup_dedupKeys _)]
    intro a
    rw [mem_dedupKeys, mem_dedupKeys]
    exact (hperm.map _).mem_iff
  exact List.eq_of_perm_of_sorted
    ((List.perm_insertionSort dateGe _).trans (hd.trans (List.perm_insertionSort dateGe _).symm))
    (List.sorted_insertionSort dateGe _) (List.sorted_insertionSort dateGe _)

/-- C9 (amended): when no two events of one day share a timestamp, the
grouped output and the aggregate summary are invariant under permutation of
the input events. -/
theorem pipeline_perm_invariant (l1 l2 : List ClockEvent) (hperm : l1.Perm l2)
    (hts : l1.Pairwise tieFree) :
    getTimecardsByDate l1 = getTimecardsByDate l2 ∧ calculateSummary l1 = calculateSummary l2 := by
  have hgroup : ∀ d : Int, dayEventsSorted l1 d = dayEventsSorted l2 d :=
    dayEventsSorted_eq_of_perm l1 l2 hperm hts
  have hdates : sortedDatesOf l1 = sortedDatesOf l2 := sortedDatesOf_eq_of_perm l1 l2 hperm
  have hdaytot : ∀ d : Int, dayTotal l1 d = dayTotal l2 d :=
    fun d => dayTotal_eq_of_group_eq l1 l2 d (hgroup d)
  constructor
  · rw [getTimecardsByDate, getTimecardsByDate, hdates]
    refine List.map_congr_left fun d _ => ?_
    rw [dayGroupFor, dayGroupFor]
    simp only [hgroup d]
  · have hdk : (dedupKeys (l1.map (fun tc => tc.date))).Perm
        (dedupKeys (l2.map (fun tc => tc.date))) := by
      rw [List.perm_ext_iff_of_nodup (nodup_dedupKeys _) (nodup_dedupKeys _)]
      intro a
      rw [mem_dedupKeys, mem_dedupKeys]
      exact (hperm.map _).mem_iff
    rw [calculateSummary, calculateSummary, summary_foldl, summary_foldl]
    simp only [Summary.mk.injEq, zero_add]
    refine ⟨?_, ?_, ?_, ?_⟩ <;>
      exact ((hdk.map _).sum_eq).trans
        (congrArg List.sum (List.map_congr_left fun d _ => by rw [hdaytot d]))

/-- Witness for the amended C9: swapping a tie-free two-event day leaves the
grouped view and the summary unchanged. -/
theorem pipeline_perm_invariant_witness :
    getTimecardsByDate [mkEvent 1 0 480 .clock_in, mkEvent 2 0 960 .clock_out] =
      getTimecardsByDate [mkEvent 2 0 960 .clock_out, mkEvent 1 0 480 .clock_in] ∧
    calculateSummary [mkEvent 1 0 480 .clock_in, mkEvent 2 0 960 .clock_out] =
      calculateSummary [mkEvent 2 0 960 .clock_out, mkEvent 1 0 480 .clock_in] :=
  pipeline_perm_invariant
    [mkEvent 1 0 480 .clock_in, mkEvent 2 0 960 .clock_out]
    [mkEvent 2 0 960 .clock_out, mkEvent 1 0 480 .clock_in]
    (List.Perm.swap _ _ _)
    (by
      refine List.Pairwise.cons ?_ (List.pairwise_singleton _ _)
      intro b hb hd
      rw [List.mem_singleton.mp hb]
      decide)

/-- C9 counterexample: two equal-timestamp events of one day, fed in the two
possible orders, give different grouped outputs — the tie is preserved from
the input order (stable sort), not broken by identifier. -/
theorem pipeline_not_perm_invariant :
    ([mkEvent 1 0 600 .clock_in, mkEvent 2 0 600 .clock_in].Perm
      [mkEvent 2 0 600 .clock_in, mkEvent 1 0 600 .clock_in]) ∧
    getTimecardsByDate [mkEvent 1 0 600 .clock_in, mkEvent 2 0 600 .clock_in] ≠
      getTimecardsByDate [mkEvent 2 0 600 .clock_in, mkEvent 1 0 600 .clock_in] := by
  constructor
  · exact List.Perm.swap _ _ _
  · intro h
    have h2 := congrArg
      (fun out => out.map (fun g => g.timecards.map (fun tc => tc.id))) h
    simp only [getTimecardsByDate, sortedDatesOf, dedupKeys, dedupKeysAux, dayGroupFor,
      dayEventsSorted, mkEvent, List.insertionSort, List.orderedInsert, tsLe, List.filter,
      List.map] at h2
    revert h2
    decide

/-- One work-day whose paired clock events carry different job names, so a
free-text query can retain one and drop the other. -/
def exMixedJobs : List ClockEvent :=
  [⟨1, 0, 480, EventType.clock_in, some "Alpha", none, Status.draft⟩,
   ⟨2, 0, 960, EventType.clock_out, some "Beta", none, Status.draft⟩]

/-- C10: the free-text filter removes individual events before any grouping
or hours computation: a query matching only the day's clock-in leaves a
half-open span, so the day's hours drop from 8 to 0 in both the summary and
the day view. -/
theorem filter_applied_before_grouping :
    filterTimecards .all 0 "alpha" exMixedJobs =
      [⟨1, 0, 480, EventType.clock_in, some "Alpha", none, Status.draft⟩] ∧
    (calculateSummary exMixedJobs).totalHours = 8 ∧
    (calculateSummary (filterTimecards .all 0 "alpha" exMixedJobs)).totalHours = 0 ∧
    (getTimecardsByDate exMixedJobs).map (fun g => g.totalHours) = [8] ∧
    (getTimecardsByDate (filterTimecards .all 0 "alpha" exMixedJobs)).map
      (fun g => g.totalHours) = [0] := by
  have hfilter : filterTimecards .all 0 "alpha" exMixedJobs =
      [⟨1, 0, 480, EventType.clock_in, some "Alpha", none, Status.draft⟩] := by rfl
  refine ⟨hfilter, ?_, ?_, ?_, ?_⟩
  · norm_num [calculateSummary, sortedDatesOf, dedupKeys, dedupKeysAux, exMixedJobs,
      summaryStep, dayTotal, calculateDayHours, dayMinutes, List.insertionSort,
      List.orderedInsert, tsLe, stepEvent, classifyDay, List.foldl, List.filter]
  · rw [hfilter]
    norm_num [calculateSummary, sortedDatesOf, dedupKeys, dedupKeysAux, summaryStep, dayTotal,
      calculateDayHours, dayMinutes, List.insertionSort, List.orderedInsert, tsLe, stepEvent,
      classifyDay, List.foldl, List.filter]
  · norm_num [getTimecardsByDate, sortedDatesOf, dedupKeys, dedupKeysAux, dayGroupFor,
      dayEventsSorted, exMixedJobs, dayTotal, calculateDayHours, dayMinutes,
      List.insertionSort, List.orderedInsert, tsLe, stepEvent, List.foldl, List.filter]
  · rw [hfilter]
    norm_num [getTimecardsByDate, sortedDatesOf, dedupKeys, dedupKeysAux, dayGroupFor,
      dayEventsSorted, dayTotal, calculateDayHours, dayMinutes, List.insertionSort,
      List.orderedInsert, tsLe, stepEvent, List.foldl, List.filter]

end Timecard
